import Mathlib

/-!
Verification of the ray-tracing core of this repository against its
natural-language specification.

The C++ core is shallowly embedded: `glm::vec3` float vectors become real
vectors, `float` scalars become real numbers, the float infinity
`INFINITY_F` becomes the top element of `WithTop Real`, in-out reference
parameters become explicit state passing (a function returns the pair of
the C++ return value and the record after the call), and fallible results
become `Option`/`Except`.  Randomness drawn from the shared generator is
passed in explicitly as oracle streams or per-call draw arguments.
-/

namespace RT

noncomputable section

/-- Three-component vector, the embedding of `glm::vec3` (x,y,z / r,g,b). -/
structure Vec3 where
  x : ℝ
  y : ℝ
  z : ℝ

namespace Vec3

/-- Component-wise addition, `glm::vec3` operator `+`. -/
def add (a b : Vec3) : Vec3 := ⟨a.x + b.x, a.y + b.y, a.z + b.z⟩

/-- Component-wise subtraction, `glm::vec3` operator `-`. -/
def sub (a b : Vec3) : Vec3 := ⟨a.x - b.x, a.y - b.y, a.z - b.z⟩

/-- Component-wise negation, unary `-` on `glm::vec3`. -/
def neg (a : Vec3) : Vec3 := ⟨-a.x, -a.y, -a.z⟩

/-- Scalar times vector, `float * glm::vec3`. -/
def smul (k : ℝ) (a : Vec3) : Vec3 := ⟨k * a.x, k * a.y, k * a.z⟩

/-- Vector divided by scalar, `glm::vec3 / float` (component-wise). -/
def divScalar (a : Vec3) (k : ℝ) : Vec3 := ⟨a.x / k, a.y / k, a.z / k⟩

/-- Component-wise product, `glm::vec3 * glm::vec3`. -/
def hadamard (a b : Vec3) : Vec3 := ⟨a.x * b.x, a.y * b.y, a.z * b.z⟩

instance : Add Vec3 := ⟨add⟩
instance : Sub Vec3 := ⟨sub⟩
instance : Neg Vec3 := ⟨neg⟩
instance : Mul Vec3 := ⟨hadamard⟩
instance : SMul ℝ Vec3 := ⟨smul⟩

/-- Dot product, `glm::dot`. -/
def dot (a b : Vec3) : ℝ := a.x * b.x + a.y * b.y + a.z * b.z

/-- Cross product, `glm::cross`. -/
def cross (a b : Vec3) : Vec3 :=
  ⟨a.y * b.z - a.z * b.y, a.z * b.x - a.x * b.z, a.x * b.y - a.y * b.x⟩

/-- Euclidean length, `glm::length`. -/
def length (a : Vec3) : ℝ := Real.sqrt (dot a a)

/-- Unit vector in the direction of `a`, `glm::normalize` (division of the
vector by its length). -/
def normalize (a : Vec3) : Vec3 := divScalar a (length a)

/-- Mirror reflection, `glm::reflect(I, N) = I - 2 * dot(N, I) * N`. -/
def reflect (I N : Vec3) : Vec3 := I - smul (2 * dot N I) N

/-- Snell refraction, `glm::refract(I, N, eta)`: with
`k = 1 - eta^2 * (1 - dot(N,I)^2)`, the result is the zero vector when
`k < 0` and `eta*I - (eta*dot(N,I) + sqrt k)*N` otherwise. -/
def refract (I N : Vec3) (eta : ℝ) : Vec3 :=
  let d := dot N I
  let k := 1 - eta * eta * (1 - d * d)
  if k < 0 then ⟨0, 0, 0⟩ else smul eta I - smul (eta * d + Real.sqrt k) N

end Vec3

/-- The embedding of `rt::Ray` from include/ray.h: origin plus direction. -/
structure Ray where
  origin : Vec3
  direction : Vec3

/-- Point-at-parameter, `Ray::At(t) = origin_ + t * direction_` (ray.cc). -/
def Ray.At (ray : Ray) (t : ℝ) : Vec3 := ray.origin + Vec3.smul t ray.direction

/-- The embedding of `rt::HitRecord` from include/hittable.h.  The struct
holds exactly the four members declared there: `front_face`, `t`, `point`
and `normal`.  (It has no material member; see the C1 analysis.) -/
structure HitRecord where
  front_face : Bool
  t : ℝ
  point : Vec3
  normal : Vec3

/-- Zero-initialised `HitRecord{}`. -/
def HitRecord.default : HitRecord := ⟨false, 0, ⟨0, 0, 0⟩, ⟨0, 0, 0⟩⟩

/-- The embedding of `HitRecord::SetFaceNormal` (include/hittable.h lines
26-29): `front_face = dot(ray.GetDirection(), outward_normal) < 0` and
`normal = front_face ? outward_normal : -outward_normal`. -/
def HitRecord.SetFaceNormal (record : HitRecord) (ray : Ray)
    (outward_normal : Vec3) : HitRecord :=
  let ff : Bool := decide (Vec3.dot ray.direction outward_normal < 0)
  { record with front_face := ff
                normal := if ff then outward_normal else -outward_normal }

/-- The embedding of `rt::Sphere` as declared in include/sphere.h: a radius
and a center (no material member there). -/
structure Sphere where
  radius : ℝ
  center : Vec3

/-- The float infinity `rt::INFINITY_F` from include/config.h,
`std::numeric_limits<float>::infinity()`, embedded as the top element of
`WithTop Real`.  Parameter upper bounds `t_max` range over `WithTop Real`
so that this value is representable. -/
def INFINITY_F : WithTop ℝ := ⊤

/-- Shared success tail of `Sphere::Hit` (src/src/sphere.cc lines 53-58):
store the accepted root in `record.t`, set `record.point = ray.At(record.t)`,
compute the outward normal `(record.point - center_) / radius_` and apply
`SetFaceNormal`. -/
def Sphere.saveHit (s : Sphere) (ray : Ray) (root : ℝ) (record : HitRecord) :
    HitRecord :=
  let record1 := { record with t := root, point := ray.At root }
  let outward_normal := Vec3.divScalar (record1.point - s.center) s.radius
  HitRecord.SetFaceNormal record1 ray outward_normal

/-- The embedding of `Sphere::Hit` (src/src/sphere.cc lines 26-61).  The
C++ signature `bool Hit(const Ray&, float, float, HitRecord&)` with an
in-out record becomes a function returning the pair of the boolean result
and the record after the call; on the early `return false` paths the record
is returned unchanged, exactly as the source never writes to it there.
The source reuses one variable `root` for both candidate roots; here the
second assignment is the separate name `root2`. -/
def Sphere.Hit (s : Sphere) (ray : Ray) (t_min : ℝ) (t_max : WithTop ℝ)
    (record : HitRecord) : Bool × HitRecord :=
  let oc := ray.origin - s.center
  let a := Vec3.dot ray.direction ray.direction
  let half_b := Vec3.dot oc ray.direction
  let c := Vec3.dot oc oc - s.radius * s.radius
  let discriminant := half_b * half_b - a * c
  if discriminant < 0 then (false, record)
  else
    let sqrtd := Real.sqrt discriminant
    let root := (-half_b - sqrtd) / a
    if root < t_min ∨ t_max < (root : WithTop ℝ) then
      let root2 := (-half_b + sqrtd) / a
      if root2 < t_min ∨ t_max < (root2 : WithTop ℝ) then (false, record)
      else (true, s.saveHit ray root2 record)
    else (true, s.saveHit ray root record)

/-- The root `Sphere::Hit` accepts on the interval `[t_min, t_max]`, or
`none` on a miss: the decision structure of `Sphere::Hit` with the filling
of the record stripped away (a proof-side companion used to reason about
the shrinking-interval scan). -/
def Sphere.acceptedRoot (s : Sphere) (ray : Ray) (t_min : ℝ)
    (t_max : WithTop ℝ) : Option ℝ :=
  let oc := ray.origin - s.center
  let a := Vec3.dot ray.direction ray.direction
  let half_b := Vec3.dot oc ray.direction
  let c := Vec3.dot oc oc - s.radius * s.radius
  let discriminant := half_b * half_b - a * c
  if discriminant < 0 then none
  else
    let sqrtd := Real.sqrt discriminant
    let root := (-half_b - sqrtd) / a
    if root < t_min ∨ t_max < (root : WithTop ℝ) then
      let root2 := (-half_b + sqrtd) / a
      if root2 < t_min ∨ t_max < (root2 : WithTop ℝ) then none
      else some root2
    else some root

/-- The discriminant `half_b^2 - a*c` computed by `Sphere::Hit` (a
proof-side companion). -/
def Sphere.hitDiscriminant (s : Sphere) (ray : Ray) : ℝ :=
  let oc := ray.origin - s.center
  let a := Vec3.dot ray.direction ray.direction
  let half_b := Vec3.dot oc ray.direction
  let c := Vec3.dot oc oc - s.radius * s.radius
  half_b * half_b - a * c

/-- The first candidate root `(-half_b - sqrt(discriminant))/a` of
`Sphere::Hit` (a proof-side companion). -/
def Sphere.root1 (s : Sphere) (ray : Ray) : ℝ :=
  let oc := ray.origin - s.center
  let a := Vec3.dot ray.direction ray.direction
  let half_b := Vec3.dot oc ray.direction
  (-half_b - Real.sqrt (s.hitDiscriminant ray)) / a

/-- The second candidate root `(-half_b + sqrt(discriminant))/a` of
`Sphere::Hit` (a proof-side companion). -/
def Sphere.root2 (s : Sphere) (ray : Ray) : ℝ :=
  let oc := ray.origin - s.center
  let a := Vec3.dot ray.direction ray.direction
  let half_b := Vec3.dot oc ray.direction
  (-half_b + Real.sqrt (s.hitDiscriminant ray)) / a

/-- One iteration of the `HittableList::Hit` loop on the state
`(hit_anything, closest_so_far, temp_record, record)`: query the child on
`[t_min, closest_so_far]` into the temporary record; a hit sets the flag,
shrinks the bound to `temp_record.t` and copies the temporary into the
caller record. -/
def HittableList.HitStep (ray : Ray) (t_min : ℝ)
    (st : Bool × WithTop ℝ × HitRecord × HitRecord) (obj : Sphere) :
    Bool × WithTop ℝ × HitRecord × HitRecord :=
  let (hit_anything, closest_so_far, temp_record, record) := st
  match obj.Hit ray t_min closest_so_far temp_record with
  | (true, temp1) => (true, (temp1.t : WithTop ℝ), temp1, temp1)
  | (false, temp1) => (hit_anything, closest_so_far, temp1, record)

/-- The embedding of `HittableList::Hit` (hittable_list.cc lines 96-111 of
src/src/sphere.cc as packaged): fold the loop step over the children in
insertion order, starting from the unset flag, the bound `t_max`, the
zero-initialised temporary record and the caller record; return the flag
and the resulting caller record.  The children are the only leaf hittable
of this repository, `Sphere`. -/
def HittableList.Hit (objects : List Sphere) (ray : Ray) (t_min : ℝ)
    (t_max : WithTop ℝ) (record : HitRecord) : Bool × HitRecord :=
  let final := objects.foldl (HittableList.HitStep ray t_min)
    (false, t_max, HitRecord.default, record)
  (final.1, final.2.2.2)

/-- The scatter capability of `rt::Material` (include/material.h): given the
incoming ray and the hit record, either decline (the C++ `Scatter` returns
false) or produce an attenuation colour and a scattered ray (the two out
parameters of the C++ call).  Concrete materials consume randomness from
the shared generator; a value of this type is one deterministic behaviour
of such a material, with the random draws of the call already fixed. -/
def Material : Type := Ray → HitRecord → Option (Vec3 × Ray)

/-- The embedding of `rt::Sphere` as declared in the sphere.h variant that
carries a material (src/unnamed/part_009): radius, center and a shared
material reference.  Note src/src/sphere.cc only defines the two-argument
constructor and its `Hit` never reads the material member. -/
structure SphereM where
  radius : ℝ
  center : Vec3
  material : Material

/-- The embedding of `Sphere::Hit` (src/src/sphere.cc lines 26-61) run on a
material-carrying sphere.  The body below is the line-for-line translation
of the source; observe that it never mentions `s.material` and that the
`HitRecord` type it fills has no material field to receive it. -/
def SphereM.Hit (s : SphereM) (ray : Ray) (t_min : ℝ) (t_max : WithTop ℝ)
    (record : HitRecord) : Bool × HitRecord :=
  let oc := ray.origin - s.center
  let a := Vec3.dot ray.direction ray.direction
  let half_b := Vec3.dot oc ray.direction
  let c := Vec3.dot oc oc - s.radius * s.radius
  let discriminant := half_b * half_b - a * c
  if discriminant < 0 then (false, record)
  else
    let sqrtd := Real.sqrt discriminant
    let root := (-half_b - sqrtd) / a
    if root < t_min ∨ t_max < (root : WithTop ℝ) then
      let root2 := (-half_b + sqrtd) / a
      if root2 < t_min ∨ t_max < (root2 : WithTop ℝ) then (false, record)
      else (true, Sphere.saveHit ⟨s.radius, s.center⟩ ray root2 record)
    else (true, Sphere.saveHit ⟨s.radius, s.center⟩ ray root record)

/-- Schlick reflectance approximation, `Dielectric::Reflectance`
(dielectric.cc): `r = ((1 - ratio)/(1 + ratio))^2` and the result is
`r + (1 - r)*(1 - cosine)^5`. -/
def Dielectric.Reflectance (cosine : ℝ) ( refraction_ratio : ℝ) : ℝ :=
  let r := (1 - refraction_ratio) / (1 + refraction_ratio)
  let r2 := r * r
  r2 + (1 - r2) * (1 - cosine) ^ (5 : ℕ)

/-- The embedding of `Dielectric::Scatter` (dielectric.cc lines 28-52).
The one random draw `Utils::RandomFloat()` the body consumes is the
explicit argument `rand`.  The C++ function always returns true, so the
result is always produced: attenuation is opaque white, the ratio is
`1/refraction_index` on a front face and `refraction_index` otherwise, and
the direction reflects when refraction is impossible or the Schlick
reflectance exceeds the draw, refracting otherwise. -/
def Dielectric.Scatter ( refraction_index : ℝ) (rand : ℝ) (ray : Ray)
    (record : HitRecord) : Vec3 × Ray :=
  let attenuation : Vec3 := ⟨1, 1, 1⟩
  let refraction_ratio :=
    if record.front_face then 1 / refraction_index else refraction_index
  let unit_direction := Vec3.normalize ray.direction
  let cos_theta := min (Vec3.dot (-unit_direction) record.normal) 1
  let sin_theta := Real.sqrt (1 - cos_theta * cos_theta)
  let cannot_refract := refraction_ratio * sin_theta > 1
  let direction :=
    if cannot_refract ∨ Dielectric.Reflectance cos_theta refraction_ratio > rand
    then Vec3.reflect unit_direction record.normal
    else Vec3.refract unit_direction record.normal refraction_ratio
  (attenuation, Ray.mk record.point direction)

/-- The abstract hittable interface the integrator consumes
(`const Hittable& world` in `Scene::RayColor`): a query on a ray and a
parameter interval that either misses or yields the filled hit record
together with the material the integrator then dereferences through
`record.material`.  The pairing stands in for that member read, which the
`HitRecord` of include/hittable.h cannot support (see C1). -/
structure Hittable where
  Hit : Ray → ℝ → WithTop ℝ → Option (HitRecord × Material)

/-- The embedding of `Scene::RayColor` (src/src/scene.cc lines 275-303):
return black once the bounce budget is spent; otherwise query the world on
`[0.001, INFINITY_F]`; on a hit ask the material to scatter and either
tint the recursive colour with the attenuation (component-wise product) or
return black when it declines; on a miss return the vertical sky
gradient. -/
def Scene.RayColor (ray : Ray) (world : Hittable) (bounce : ℤ) : Vec3 :=
  if bounce ≤ 0 then ⟨0, 0, 0⟩
  else
    match world.Hit ray 0.001 INFINITY_F with
    | some (record, material) =>
      match material ray record with
      | some (attenuation, scattered) =>
        attenuation * Scene.RayColor scattered world (bounce - 1)
      | none => ⟨0, 0, 0⟩
    | none =>
      let unit_direction := Vec3.normalize ray.direction
      let t := 0.5 * (unit_direction.y + 1)
      Vec3.smul (1 - t) ⟨1, 1, 1⟩ + Vec3.smul t ⟨0.5, 0.7, 1⟩
termination_by bounce.toNat
decreasing_by
  all_goals omega

/-- The float constant `rt::PI = 3.1415926f` from include/config.h. -/
def PI : ℝ := 3.1415926

/-- Modelled from the spec: `Utils::DegreesToRadians` is called by the
camera constructor (camera.cc) but its body is not among the source files;
standard conversion of a vertical field of view in degrees to radians,
using the `rt::PI` constant of config.h. -/
def Utils.DegreesToRadians (degrees : ℝ) : ℝ := degrees * PI / 180

/-- The embedding of `rt::Camera` (the defocus-blur variant used by
src/src/scene.cc, constructed in the camera.cc variant of
src/unnamed/part_006): origin, precomputed viewport vectors, the
orthonormal basis and the lens radius. -/
structure Camera where
  origin : Vec3
  lower_left : Vec3
  horizontal : Vec3
  vertical : Vec3
  forward : Vec3
  right : Vec3
  up : Vec3
  lens_radius : ℝ

/-- The camera constructor
`Camera(origin, look_at, world_up, fov, aspect_ratio, aperture, focus_dist)`
(src/unnamed/part_006): derive the basis, scale the viewport by the focus
distance and halve the aperture into the lens radius. -/
def Camera.build (origin look_at world_up : Vec3) (fov aspect_ratio : ℝ)
    (aperture focus_dist : ℝ) : Camera :=
  let theta := Utils.DegreesToRadians fov
  let height := Real.tan (theta / 2)
  let viewport_height := 2 * height
  let viewport_width := viewport_height * aspect_ratio
  let forward := Vec3.normalize (look_at - origin)
  let right := Vec3.normalize (Vec3.cross forward world_up)
  let up := Vec3.cross right forward
  let horizontal := Vec3.smul (focus_dist * viewport_width) right
  let vertical := Vec3.smul (focus_dist * viewport_height) up
  let lower_left := origin - Vec3.divScalar horizontal 2 -
    Vec3.divScalar vertical 2 + Vec3.smul focus_dist forward
  ⟨origin, lower_left, horizontal, vertical, forward, right, up, aperture / 2⟩

/-- The embedding of `Camera::GetRay(u, v)` (src/unnamed/part_006).  The
body calls `Utils::RandomInUnitDisk()`, whose implementation is not among
the source files; the sampled disk point is therefore the explicit
argument `disk_sample`.  The lens offset displaces the origin along the
right and up basis vectors and the direction aims at the viewport point. -/
def Camera.GetRay (c : Camera) (disk_sample : Vec3) (u v : ℝ) : Ray :=
  let ray_direction := Vec3.smul c.lens_radius disk_sample
  let offset := Vec3.smul ray_direction.x c.right + Vec3.smul ray_direction.y c.up
  ⟨c.origin + offset,
   c.lower_left + Vec3.smul u c.horizontal + Vec3.smul v c.vertical -
     c.origin - offset⟩

/-- The clamping `std::clamp(v, lo, hi)`: `lo` when `v < lo`, `hi` when
`hi < v`, `v` otherwise. -/
def stdClamp (v lo hi : ℝ) : ℝ := if v < lo then lo else if hi < v then hi else v

/-- One colour channel of `Utils::GetColor` (utils.cc lines 657-668 of the
src/unnamed/part_004 packaging):
`static_cast<uint32_t>(pow(clamp(scale * channel, 0, 0.999) * 256, 1/gamma))`,
embedded as the truncation of the real power. -/
def Utils.GetColorChannel (scale channel gamma : ℝ) : ℕ :=
  (⌊(stdClamp (scale * channel) 0 0.999 * 256) ^ (1 / gamma)⌋).toNat

/-- The embedding of the three-channel `Utils::GetColor(vec3, int, float)`
(src/unnamed/part_004): average by `scale = 1/samples_per_pixel`,
gamma-correct each channel and pack `(255 << 24) | (B << 16) | (G << 8) | R`. -/
def Utils.GetColor (color : Vec3) (samples_per_pixel : ℤ) (gamma : ℝ) : ℕ :=
  let scale : ℝ := 1 / (samples_per_pixel : ℝ)
  let R := Utils.GetColorChannel scale color.x gamma
  let G := Utils.GetColorChannel scale color.y gamma
  let B := Utils.GetColorChannel scale color.z gamma
  (255 <<< 24) ||| (B <<< 16) ||| (G <<< 8) ||| R

/-- Four-component colour, the embedding of `glm::vec4` (r,g,b,a). -/
structure Vec4 where
  r : ℝ
  g : ℝ
  b : ℝ
  a : ℝ

/-- The embedding of the four-channel `Utils::GetColor(vec4, int, float)`
(src/unnamed/part_004): R, G and B as in the three-channel variant and
`A = static_cast<uint32_t>(clamp(color.a, 0, 0.999) * 256)` — the alpha
channel is neither averaged by the sample count nor gamma-corrected —
packed `(A << 24) | (B << 16) | (G << 8) | R`. -/
def Utils.GetColor4 (color : Vec4) (samples_per_pixel : ℤ) (gamma : ℝ) : ℕ :=
  let scale : ℝ := 1 / (samples_per_pixel : ℝ)
  let R := Utils.GetColorChannel scale color.r gamma
  let G := Utils.GetColorChannel scale color.g gamma
  let B := Utils.GetColorChannel scale color.b gamma
  let A := (⌊stdClamp color.a 0 0.999 * 256⌋).toNat
  (A <<< 24) ||| (B <<< 16) ||| (G <<< 8) ||| R

/-- The persistent function-local state of `Utils::RandomFloat`
(src/unnamed/part_004 lines 683-688): the
`static std::uniform_real_distribution<float> distribution(min, max)` is
captured as the bounds of the first-ever call (`none` before that call),
and the `static std::mt19937 generator{}` is captured as the number of
values already drawn from the fixed default-seeded engine stream. -/
structure RandomFloatState where
  dist : Option (ℝ × ℝ)
  drawn : ℕ

/-- The mapping of `std::uniform_real_distribution<float>(a, b)` applied to
one engine draw, modelled with the draw as a value `u` of the unit
interval: the sample is `a + u * (b - a)`. -/
def uniformRealDistribution (a b u : ℝ) : ℝ := a + u * (b - a)

/-- The embedding of `Utils::RandomFloat(min, max)` (src/unnamed/part_004
lines 683-688).  `engine` is the deterministic output stream of the
default-constructed `std::mt19937`, mapped into the unit interval; the
function-local statics become the explicit state.  On the first call the
distribution captures `(min, max)`; on every later call the arguments are
dead and the captured bounds are used. -/
def Utils.RandomFloat (engine : ℕ → ℝ) (st : RandomFloatState)
    (min max : ℝ) : ℝ × RandomFloatState :=
  let bounds := st.dist.getD (min, max)
  (uniformRealDistribution bounds.1 bounds.2 (engine st.drawn),
   ⟨some bounds, st.drawn + 1⟩)

/-- One call of a `Utils::RandomFloat` call sequence: draw with the current
state and the argument pair, appending the value. -/
def Utils.RandomFloatRunStep (engine : ℕ → ℝ)
    (acc : List ℝ × RandomFloatState) (args : ℝ × ℝ) :
    List ℝ × RandomFloatState :=
  let (value, st) := Utils.RandomFloat engine acc.2 args.1 args.2
  (acc.1 ++ [value], st)

/-- The outputs of a sequence of `Utils::RandomFloat` calls with the given
argument pairs, starting from the pristine program state (no call made
yet). -/
def Utils.RandomFloatRun (engine : ℕ → ℝ) (calls : List (ℝ × ℝ)) : List ℝ :=
  (calls.foldl (Utils.RandomFloatRunStep engine) ([], ⟨none, 0⟩)).1

/-- The clamping of the samples-per-pixel setting performed by
`Scene::OnUIRender` (src/src/scene.cc lines 110-112) right after the input
widget: values below 1 are forced to 1. -/
def Scene.clampSamplesPerPixel (samples_per_pixel : ℤ) : ℤ :=
  if samples_per_pixel < 1 then 1 else samples_per_pixel

/-- The clamping of the bounce-limit setting performed by
`Scene::OnUIRender` (src/src/scene.cc lines 119-121): values below 0 are
forced to 0. -/
def Scene.clampBounceLimit (bounce_limit : ℤ) : ℤ :=
  if bounce_limit < 0 then 0 else bounce_limit

/-- The clamping of the gamma setting performed by `Scene::OnUIRender`
(src/src/scene.cc lines 128-130): values below 0 are forced to 0. -/
def Scene.clampGamma (gamma : ℝ) : ℝ := if gamma < 0 then 0 else gamma

/-- Modelled from the spec: the `InvalidConfiguration` failure kind named
by the error-handling section.  No such kind (nor any other failure path)
exists anywhere in the rendering source; the type is declared so that the
claimed rejection behaviour of the render entry point is statable. -/
inductive RenderError where
  | invalidConfiguration

/-- The embedding of the material-carrying hit chain the integrator
requires: the scan of `HittableList::Hit` run over material-carrying
spheres, returning the nearest filled record paired with the material of
the sphere that produced it.  Modelled from the spec for the pairing:
the spec asks to attach the sphere material reference — the source
`Sphere::Hit` fills
the record without attaching any material (see C1), so the material is
carried alongside here to give `Scene::RayColor` the member it reads. -/
def HittableListM.Hit (objects : List SphereM) (ray : Ray) (t_min : ℝ)
    (t_max : WithTop ℝ) : Option (HitRecord × Material) :=
  let final := objects.foldl
    (fun (st : Option (HitRecord × Material) × WithTop ℝ × HitRecord) obj =>
      match obj.Hit ray t_min st.2.1 st.2.2 with
      | (true, temp1) => (some (temp1, obj.material), (temp1.t : WithTop ℝ), temp1)
      | (false, temp1) => (st.1, st.2.1, temp1))
    (none, t_max, HitRecord.default)
  final.1

/-- The embedding of `Scene::Render` (src/src/scene.cc lines 195-259).
The GPU image plumbing is out of scope; the produced row-major pixel
buffer (`image_data_`, written at index `j*width + i`) is returned
directly.  The camera is built exactly as in the source — note the
integer division `width_ / height_` in the aspect ratio — and the world is
the five hard-coded spheres, including the negative-radius dielectric
shell.  The four materials are behaviour parameters (their scatter draws
from the shared generator are already fixed inside them, see `Material`);
`jitter` is the stream of `Utils::RandomFloat()` values consumed by the
sample loop and `disk` the stream of `Utils::RandomInUnitDisk()` points
consumed by `Camera::GetRay`.  The result is wrapped in `Except` against
the spec-modelled `RenderError`: the source performs no configuration
check whatsoever and every path ends in the buffer, so the `.error`
constructor is never used. -/
def Scene.Render (width height : ℕ) (origin : Vec3) (fov aperture : ℝ)
    (samples_per_pixel bounce_limit : ℤ) (gamma : ℝ)
    (material_ground material_center material_left material_right : Material)
    (jitter : ℕ → ℝ) (disk : ℕ → Vec3) :
    Except RenderError (List ℕ) :=
  let lookat : Vec3 := ⟨0, 0, -1⟩
  let world_up : Vec3 := ⟨0, 1, 0⟩
  let focus_dist := Vec3.length (origin - lookat)
  let camera := Camera.build origin lookat world_up fov
    ((width / height : ℕ) : ℝ) aperture focus_dist
  let objects : List SphereM :=
    [⟨100, ⟨0, -100.5, -1⟩, material_ground⟩,
     ⟨0.5, ⟨0, 0, -1⟩, material_center⟩,
     ⟨0.5, ⟨-1, 0, -1⟩, material_left⟩,
     ⟨-0.4, ⟨1, 0, -1⟩, material_right⟩,
     ⟨0.5, ⟨1, 0, -1⟩, material_right⟩]
  let world : Hittable := ⟨fun r lo hi => HittableListM.Hit objects r lo hi⟩
  Except.ok <|
    (List.range height).flatMap fun j =>
      (List.range width).map fun i =>
        let pixel_color := (List.range samples_per_pixel.toNat).foldl
          (fun acc s =>
            let k := (j * width + i) * samples_per_pixel.toNat + s
            let u := ((i : ℝ) + jitter (2 * k)) / ((width - 1 : ℕ) : ℝ)
            let v := 1 - ((j : ℝ) + jitter (2 * k + 1)) / ((height - 1 : ℕ) : ℝ)
            let ray := camera.GetRay (disk k) u v
            acc + Scene.RayColor ray world bounce_limit)
          (⟨0, 0, 0⟩ : Vec3)
        Utils.GetColor pixel_color samples_per_pixel gamma

end

/-! Helper lemmas about the vector operations and the hit routines. -/

theorem Vec3.add_def (a b : Vec3) : a + b = ⟨a.x + b.x, a.y + b.y, a.z + b.z⟩ :=
  rfl

theorem Vec3.sub_def (a b : Vec3) : a - b = ⟨a.x - b.x, a.y - b.y, a.z - b.z⟩ :=
  rfl

theorem Vec3.mul_def (a b : Vec3) : a * b = ⟨a.x * b.x, a.y * b.y, a.z * b.z⟩ :=
  rfl

theorem Vec3.dot_neg_right (a b : Vec3) : Vec3.dot a (-b) = -(Vec3.dot a b) := by
  simp only [show -b = Vec3.neg b from rfl, Vec3.neg, Vec3.dot]
  ring

theorem Vec3.dot_self_nonneg (a : Vec3) : 0 ≤ Vec3.dot a a :=
  add_nonneg (add_nonneg (mul_self_nonneg _) (mul_self_nonneg _))
    (mul_self_nonneg _)

/-- The success tail of `Sphere::Hit` overwrites every field of the record,
so the record passed in does not influence the filled record. -/
theorem Sphere.saveHit_const (s : Sphere) (ray : Ray) (root : ℝ)
    (r1 r2 : HitRecord) : s.saveHit ray root r1 = s.saveHit ray root r2 := rfl

/-- `Sphere::Hit` decomposed through `acceptedRoot`: the call returns true
with the filled record exactly when a root is accepted, and returns false
with the untouched record otherwise. -/
theorem Sphere.hit_eq_acceptedRoot (s : Sphere) (ray : Ray) (t_min : ℝ)
    (t_max : WithTop ℝ) (record : HitRecord) :
    s.Hit ray t_min t_max record =
      (match s.acceptedRoot ray t_min t_max with
       | some root => (true, s.saveHit ray root record)
       | none => (false, record)) := by
  simp only [Sphere.Hit, Sphere.acceptedRoot]
  split
  · rfl
  · split
    · split
      · rfl
      · rfl
    · rfl

/-- C8: `HitRecord::SetFaceNormal` sets `front_face` to true iff the ray
direction and the outward normal have negative dot product, stores the
outward normal on a front face and its negation otherwise, and the stored
normal therefore always has non-positive dot product with the ray
direction. -/
theorem set_face_normal_spec (record : HitRecord) (ray : Ray)
    (outward_normal : Vec3) :
    ((record.SetFaceNormal ray outward_normal).front_face = true ↔
      Vec3.dot ray.direction outward_normal < 0) ∧
    (record.SetFaceNormal ray outward_normal).normal =
      (if Vec3.dot ray.direction outward_normal < 0 then outward_normal
       else -outward_normal) ∧
    Vec3.dot ray.direction (record.SetFaceNormal ray outward_normal).normal ≤ 0 := by
  refine ⟨by simp [HitRecord.SetFaceNormal], ?_, ?_⟩
  · by_cases h : Vec3.dot ray.direction outward_normal < 0 <;>
      simp [HitRecord.SetFaceNormal, h]
  · by_cases h : Vec3.dot ray.direction outward_normal < 0
    · have hn : (record.SetFaceNormal ray outward_normal).normal =
          outward_normal := by simp [HitRecord.SetFaceNormal, h]
      rw [hn]
      exact le_of_lt h
    · have hn : (record.SetFaceNormal ray outward_normal).normal =
          -outward_normal := by simp [HitRecord.SetFaceNormal, h]
      rw [hn, Vec3.dot_neg_right]
      linarith [not_lt.mp h]

/-- C1: the record populated by `Sphere::Hit` (src/src/sphere.cc) does not
depend on the sphere material in any way — the body fills only the four
members `t`, `point`, `normal` and `front_face` of the `HitRecord` of
include/hittable.h, which has no material member, so the integrator read
`record.material` is not backed by the intersection code. -/
theorem sphere_hit_ignores_material (radius : ℝ) (center : Vec3)
    (m1 m2 : Material) (ray : Ray) (t_min : ℝ) (t_max : WithTop ℝ)
    (record : HitRecord) :
    SphereM.Hit ⟨radius, center, m1⟩ ray t_min t_max record =
      SphereM.Hit ⟨radius, center, m2⟩ ray t_min t_max record := rfl

/-- Shape of one `HittableList::Hit` loop iteration: either the child hits
and the state becomes the hit state, or it misses and only the temporary
record moves. -/
theorem HittableList.hitStep_cases (ray : Ray) (t_min : ℝ)
    (st : Bool × WithTop ℝ × HitRecord × HitRecord) (obj : Sphere) :
    (∃ temp1, obj.Hit ray t_min st.2.1 st.2.2.1 = (true, temp1) ∧
      HittableList.HitStep ray t_min st obj =
        (true, (temp1.t : WithTop ℝ), temp1, temp1)) ∨
    (∃ temp1, obj.Hit ray t_min st.2.1 st.2.2.1 = (false, temp1) ∧
      HittableList.HitStep ray t_min st obj =
        (st.1, st.2.1, temp1, st.2.2.2)) := by
  obtain ⟨b, cl, tmp, rec⟩ := st
  rcases hhit : obj.Hit ray t_min cl tmp with ⟨flag, temp1⟩
  cases flag
  · exact Or.inr ⟨temp1, rfl, by simp [HittableList.HitStep, hhit]⟩
  · exact Or.inl ⟨temp1, rfl, by simp [HittableList.HitStep, hhit]⟩

theorem HittableList.hitStep_true_mono (ray : Ray) (t_min : ℝ)
    (st : Bool × WithTop ℝ × HitRecord × HitRecord) (obj : Sphere)
    (h : st.1 = true) : (HittableList.HitStep ray t_min st obj).1 = true := by
  rcases HittableList.hitStep_cases ray t_min st obj with
    ⟨temp1, _, hstep⟩ | ⟨temp1, _, hstep⟩
  · rw [hstep]
  · rw [hstep]
    exact h

theorem HittableList.foldl_true_mono (ray : Ray) (t_min : ℝ)
    (objects : List Sphere) :
    ∀ st : Bool × WithTop ℝ × HitRecord × HitRecord, st.1 = true →
      (objects.foldl (HittableList.HitStep ray t_min) st).1 = true := by
  induction objects with
  | nil => intro st h; exact h
  | cons o os ih =>
    intro st h
    exact ih _ (HittableList.hitStep_true_mono ray t_min st o h)

theorem HittableList.foldl_false_record (ray : Ray) (t_min : ℝ)
    (objects : List Sphere) :
    ∀ st : Bool × WithTop ℝ × HitRecord × HitRecord,
      (objects.foldl (HittableList.HitStep ray t_min) st).1 = false →
      (objects.foldl (HittableList.HitStep ray t_min) st).2.2.2 = st.2.2.2 := by
  induction objects with
  | nil => intro st _; rfl
  | cons o os ih =>
    intro st hfalse
    simp only [List.foldl_cons] at hfalse ⊢
    rcases HittableList.hitStep_cases ray t_min st o with
      ⟨temp1, _, hstep⟩ | ⟨temp1, _, hstep⟩
    · exfalso
      rw [hstep] at hfalse
      rw [HittableList.foldl_true_mono ray t_min os _ rfl] at hfalse
      exact Bool.true_eq_false.mp hfalse
    · rw [hstep] at hfalse ⊢
      exact ih _ hfalse

/-- C10: when `Sphere::Hit` or `HittableList::Hit` reports a miss, the
caller record is returned exactly as it was passed in — every write to it
happens on the success path only. -/
theorem hit_miss_leaves_record_unchanged :
    (∀ (s : Sphere) (ray : Ray) (t_min : ℝ) (t_max : WithTop ℝ)
       (record : HitRecord), (s.Hit ray t_min t_max record).1 = false →
         (s.Hit ray t_min t_max record).2 = record) ∧
    (∀ (objects : List Sphere) (ray : Ray) (t_min : ℝ) (t_max : WithTop ℝ)
       (record : HitRecord),
       (HittableList.Hit objects ray t_min t_max record).1 = false →
         (HittableList.Hit objects ray t_min t_max record).2 = record) := by
  constructor
  · intro s ray t_min t_max record h
    rw [Sphere.hit_eq_acceptedRoot] at h ⊢
    cases hacc : s.acceptedRoot ray t_min t_max with
    | none => simp [hacc]
    | some root => rw [hacc] at h; simp at h
  · intro objects ray t_min t_max record h
    simp only [HittableList.Hit] at h ⊢
    exact HittableList.foldl_false_record ray t_min objects _ h

/-- C10 witness: a concrete miss (negative discriminant for the sphere, and
the one-sphere list around it) leaves a marked record untouched. -/
theorem hit_miss_leaves_record_unchanged_witness :
    (Sphere.Hit ⟨1, ⟨0, 10, 0⟩⟩ ⟨⟨0, 0, 0⟩, ⟨0, 0, -1⟩⟩ 0.001 INFINITY_F
        ⟨true, 42, ⟨1, 2, 3⟩, ⟨4, 5, 6⟩⟩).2 = ⟨true, 42, ⟨1, 2, 3⟩, ⟨4, 5, 6⟩⟩ ∧
    (HittableList.Hit [⟨1, ⟨0, 10, 0⟩⟩] ⟨⟨0, 0, 0⟩, ⟨0, 0, -1⟩⟩ 0.001 INFINITY_F
        ⟨true, 42, ⟨1, 2, 3⟩, ⟨4, 5, 6⟩⟩).2 = ⟨true, 42, ⟨1, 2, 3⟩, ⟨4, 5, 6⟩⟩ := by
  have hmiss : ∀ rec : HitRecord,
      Sphere.Hit ⟨1, ⟨0, 10, 0⟩⟩ ⟨⟨0, 0, 0⟩, ⟨0, 0, -1⟩⟩ 0.001 INFINITY_F rec =
        (false, rec) := by
    intro rec
    simp only [Sphere.Hit, Vec3.dot]
    norm_num [HSub.hSub, Sub.sub, Vec3.sub]
  constructor
  · exact hit_miss_leaves_record_unchanged.1 _ _ _ _ _ (by rw [hmiss])
  · refine hit_miss_leaves_record_unchanged.2 _ _ _ _ _ ?_
    simp only [HittableList.Hit, List.foldl_cons, List.foldl_nil,
      HittableList.HitStep, hmiss]

theorem Utils.randomFloatRun_captured (engine : ℕ → ℝ) :
    ∀ (cs ds : List (ℝ × ℝ)) (acc : List ℝ) (st : RandomFloatState)
      (p : ℝ × ℝ), st.dist = some p → cs.length = ds.length →
      cs.foldl (Utils.RandomFloatRunStep engine) (acc, st) =
        ds.foldl (Utils.RandomFloatRunStep engine) (acc, st) := by
  intro cs
  induction cs with
  | nil =>
    intro ds acc st p _ hlen
    rw [List.length_nil] at hlen
    rw [List.eq_nil_of_length_eq_zero hlen.symm]
  | cons c cs ih =>
    intro ds acc st p hp hlen
    cases ds with
    | nil => simp at hlen
    | cons d ds =>
      simp only [List.foldl_cons]
      have hstep : ∀ args : ℝ × ℝ,
          Utils.RandomFloatRunStep engine (acc, st) args =
            (acc ++ [uniformRealDistribution p.1 p.2 (engine st.drawn)],
             ⟨some p, st.drawn + 1⟩) := by
        intro args
        simp [Utils.RandomFloatRunStep, Utils.RandomFloat, hp]
      rw [hstep c, hstep d]
      exact ih ds _ _ p rfl (by simpa using hlen)

/-- C9: the distribution and generator of `Utils::RandomFloat` are
function-local statics: the first call fixes the distribution to its own
`[min, max)`, every later call returns a draw from that first interval no
matter what arguments it receives, a unit-interval engine draw lands the
value in the captured interval, and a whole call sequence is determined by
the engine stream, the first call arguments and the number of calls alone
(the default-constructed `mt19937` makes the stream a fixed program
constant, hence identical runs). -/
theorem random_float_statics_spec :
    (∀ (engine : ℕ → ℝ) (st : RandomFloatState) (mn mx : ℝ),
       st.dist = none →
       Utils.RandomFloat engine st mn mx =
         (uniformRealDistribution mn mx (engine st.drawn),
          ⟨some (mn, mx), st.drawn + 1⟩)) ∧
    (∀ (engine : ℕ → ℝ) (st : RandomFloatState) (a b mn mx mn' mx' : ℝ),
       st.dist = some (a, b) →
       Utils.RandomFloat engine st mn mx = Utils.RandomFloat engine st mn' mx' ∧
       Utils.RandomFloat engine st mn mx =
         (uniformRealDistribution a b (engine st.drawn),
          ⟨some (a, b), st.drawn + 1⟩)) ∧
    (∀ a b u : ℝ, a < b → 0 ≤ u → u < 1 →
       a ≤ uniformRealDistribution a b u ∧ uniformRealDistribution a b u < b) ∧
    (∀ (engine : ℕ → ℝ) (calls calls' : List (ℝ × ℝ)),
       calls.head? = calls'.head? → calls.length = calls'.length →
       Utils.RandomFloatRun engine calls = Utils.RandomFloatRun engine calls') := by
  refine ⟨?_, ?_, ?_, ?_⟩
  · intro engine st mn mx h
    simp [Utils.RandomFloat, h]
  · intro engine st a b mn mx mn' mx' h
    constructor <;> simp [Utils.RandomFloat, h]
  · intro a b u hab hu0 hu1
    constructor
    · have : 0 ≤ u * (b - a) := mul_nonneg hu0 (by linarith)
      simp only [uniformRealDistribution]
      linarith
    · have : u * (b - a) < 1 * (b - a) :=
        mul_lt_mul_of_pos_right hu1 (by linarith)
      simp only [uniformRealDistribution]
      linarith
  · intro engine calls calls' hhead hlen
    cases calls with
    | nil =>
      cases calls' with
      | nil => rfl
      | cons d ds => simp at hlen
    | cons c cs =>
      cases calls' with
      | nil => simp at hlen
      | cons d ds =>
        have hcd : c = d := by simpa using hhead
        subst hcd
        simp only [Utils.RandomFloatRun, List.foldl_cons]
        rw [Utils.randomFloatRun_captured engine cs ds _ _ (c.1, c.2)
          (by simp [Utils.RandomFloatRunStep, Utils.RandomFloat])
          (by simpa using hlen)]

/-- C9 witness: a later call with arguments `(100, 200)` still draws from
the captured interval `(3, 5)`, a half draw maps into `[3, 5)`, and two
runs differing only in the arguments of the second call coincide. -/
theorem random_float_statics_spec_witness :
    (Utils.RandomFloat (fun _ => 1/2) ⟨some (3, 5), 7⟩ 100 200).1 = 4 ∧
    (3:ℝ) ≤ uniformRealDistribution 3 5 (1/2) ∧
      uniformRealDistribution 3 5 (1/2) < 5 ∧
    Utils.RandomFloatRun (fun _ => 1/2) [(0, 2), (50, 60)] =
      Utils.RandomFloatRun (fun _ => 1/2) [(0, 2), (7, 9)] := by
  refine ⟨?_, ?_, ?_, ?_⟩
  · rw [(random_float_statics_spec.2.1 (fun _ => 1/2) ⟨some (3, 5), 7⟩
      3 5 100 200 0 0 rfl).2]
    norm_num [uniformRealDistribution]
  · exact (random_float_statics_spec.2.2.1 3 5 (1/2) (by norm_num)
      (by norm_num) (by norm_num)).1
  · exact (random_float_statics_spec.2.2.1 3 5 (1/2) (by norm_num)
      (by norm_num) (by norm_num)).2
  · exact random_float_statics_spec.2.2.2 (fun _ => 1/2) _ _ rfl rfl

/-- C2: `Scene::RayColor` returns black on an exhausted bounce budget;
otherwise it queries the scene on `[0.001, INFINITY_F]`; on a miss it
returns the vertical sky gradient
`(1-t)*(1,1,1) + t*(0.5,0.7,1)` with `t = 0.5*(normalize(dir).y + 1)`; on
a hit it returns black when the material declines to scatter and otherwise
the attenuation times the recursive colour of the scattered ray with one
bounce fewer. -/
theorem ray_color_spec (ray : Ray) (world : Hittable) (bounce : ℤ) :
    (bounce ≤ 0 → Scene.RayColor ray world bounce = ⟨0, 0, 0⟩) ∧
    (0 < bounce → world.Hit ray 0.001 INFINITY_F = none →
       Scene.RayColor ray world bounce =
         Vec3.smul (1 - 0.5 * ((Vec3.normalize ray.direction).y + 1)) ⟨1, 1, 1⟩ +
           Vec3.smul (0.5 * ((Vec3.normalize ray.direction).y + 1)) ⟨0.5, 0.7, 1⟩) ∧
    (∀ record material, 0 < bounce →
       world.Hit ray 0.001 INFINITY_F = some (record, material) →
       material ray record = none →
       Scene.RayColor ray world bounce = ⟨0, 0, 0⟩) ∧
    (∀ record material attenuation scattered, 0 < bounce →
       world.Hit ray 0.001 INFINITY_F = some (record, material) →
       material ray record = some (attenuation, scattered) →
       Scene.RayColor ray world bounce =
         attenuation * Scene.RayColor scattered world (bounce - 1)) := by
  refine ⟨?_, ?_, ?_, ?_⟩
  · intro h
    rw [Scene.RayColor]
    simp [h]
  · intro hpos hmiss
    rw [Scene.RayColor]
    simp [not_le.mpr hpos, hmiss]
  · intro record material hpos hhit hdecline
    rw [Scene.RayColor]
    simp [not_le.mpr hpos, hhit, hdecline]
  · intro record material attenuation scattered hpos hhit hscatter
    rw [Scene.RayColor]
    simp [not_le.mpr hpos, hhit, hscatter]

/-- C2 witness: on a world that always misses, the budget cutoff returns
black and a straight-up ray returns the pure sky colour `(0.5, 0.7, 1)`. -/
theorem ray_color_spec_witness :
    Scene.RayColor ⟨⟨0, 0, 0⟩, ⟨0, 1, 0⟩⟩ ⟨fun _ _ _ => none⟩ 0 = ⟨0, 0, 0⟩ ∧
    Scene.RayColor ⟨⟨0, 0, 0⟩, ⟨0, 1, 0⟩⟩ ⟨fun _ _ _ => none⟩ 5 =
      ⟨0.5, 0.7, 1⟩ := by
  constructor
  · exact (ray_color_spec _ _ _).1 (by norm_num)
  · rw [(ray_color_spec _ _ _).2.1 (by norm_num) rfl]
    have h1 : Vec3.normalize ⟨0, 1, 0⟩ = ⟨0, 1, 0⟩ := by
      simp only [Vec3.normalize, Vec3.length, Vec3.dot, Vec3.divScalar]
      norm_num
    rw [h1, Vec3.add_def]
    simp only [Vec3.smul]
    norm_num

/-- C4: `Sphere::Hit` solves the half-b quadratic
`a = D.D`, `half_b = (O-C).D`, `c = (O-C).(O-C) - r^2`,
`discriminant = half_b^2 - a*c`; a negative discriminant is a miss;
otherwise the root `(-half_b - sqrt(discriminant))/a` is accepted when it
lies in `[t_min, t_max]`, else `(-half_b + sqrt(discriminant))/a` is
tried, else the call misses; on success the record holds the accepted
root, the point `ray.At(root)` and the face-normal convention applied to
the sign-sensitive outward normal `(point - center)/radius`. -/
theorem sphere_hit_quadratic_spec (s : Sphere) (ray : Ray) (t_min : ℝ)
    (t_max : WithTop ℝ) (record : HitRecord) (a half_b c discriminant : ℝ)
    (ha : a = Vec3.dot ray.direction ray.direction)
    (hb : half_b = Vec3.dot (ray.origin - s.center) ray.direction)
    (hc : c = Vec3.dot (ray.origin - s.center) (ray.origin - s.center) -
      s.radius * s.radius)
    (hd : discriminant = half_b * half_b - a * c) :
    (discriminant < 0 → s.Hit ray t_min t_max record = (false, record)) ∧
    (0 ≤ discriminant →
      (∀ root, root = (-half_b - Real.sqrt discriminant) / a →
        t_min ≤ root → (root : WithTop ℝ) ≤ t_max →
        s.Hit ray t_min t_max record =
          (true, HitRecord.SetFaceNormal
            { record with t := root, point := ray.At root } ray
            (Vec3.divScalar (ray.At root - s.center) s.radius))) ∧
      (∀ root root2, root = (-half_b - Real.sqrt discriminant) / a →
        root2 = (-half_b + Real.sqrt discriminant) / a →
        (root < t_min ∨ t_max < (root : WithTop ℝ)) →
        t_min ≤ root2 → (root2 : WithTop ℝ) ≤ t_max →
        s.Hit ray t_min t_max record =
          (true, HitRecord.SetFaceNormal
            { record with t := root2, point := ray.At root2 } ray
            (Vec3.divScalar (ray.At root2 - s.center) s.radius))) ∧
      (∀ root root2, root = (-half_b - Real.sqrt discriminant) / a →
        root2 = (-half_b + Real.sqrt discriminant) / a →
        (root < t_min ∨ t_max < (root : WithTop ℝ)) →
        (root2 < t_min ∨ t_max < (root2 : WithTop ℝ)) →
        s.Hit ray t_min t_max record = (false, record))) := by
  subst ha hb hc hd
  constructor
  · intro hneg
    simp only [Sphere.Hit]
    rw [if_pos hneg]
  · intro hnonneg
    refine ⟨?_, ?_, ?_⟩
    · intro root hroot h1 h2
      subst hroot
      simp only [Sphere.Hit]
      rw [if_neg (not_lt.mpr hnonneg),
        if_neg (not_or.mpr ⟨not_lt.mpr h1, not_lt.mpr h2⟩)]
      rfl
    · intro root root2 hroot hroot2 hrej h1 h2
      subst hroot hroot2
      simp only [Sphere.Hit]
      rw [if_neg (not_lt.mpr hnonneg), if_pos hrej,
        if_neg (not_or.mpr ⟨not_lt.mpr h1, not_lt.mpr h2⟩)]
      rfl
    · intro root root2 hroot hroot2 hrej hrej2
      subst hroot hroot2
      simp only [Sphere.Hit]
      rw [if_neg (not_lt.mpr hnonneg), if_pos hrej, if_pos hrej2]

/-- C4 witness: the unit sphere at `(0,0,-2)` and the ray from the origin
along `-z` give `a = 1`, `half_b = -2`, `c = 3`, `discriminant = 1`, and
the first root `1` is accepted on `[0, 3]`. -/
theorem sphere_hit_quadratic_spec_witness :
    Sphere.Hit ⟨1, ⟨0, 0, -2⟩⟩ ⟨⟨0, 0, 0⟩, ⟨0, 0, -1⟩⟩ 0 ((3 : ℝ) : WithTop ℝ)
        HitRecord.default =
      (true, HitRecord.SetFaceNormal
        ⟨HitRecord.default.front_face, 1, Ray.At ⟨⟨0, 0, 0⟩, ⟨0, 0, -1⟩⟩ 1,
          HitRecord.default.normal⟩ ⟨⟨0, 0, 0⟩, ⟨0, 0, -1⟩⟩
        (Vec3.divScalar (Ray.At ⟨⟨0, 0, 0⟩, ⟨0, 0, -1⟩⟩ 1 - ⟨0, 0, -2⟩) 1)) := by
  refine ((sphere_hit_quadratic_spec ⟨1, ⟨0, 0, -2⟩⟩ ⟨⟨0, 0, 0⟩, ⟨0, 0, -1⟩⟩
      0 ((3 : ℝ) : WithTop ℝ) HitRecord.default 1 (-2) 3 1
      (by norm_num [Vec3.dot]) (by norm_num [Vec3.dot, Vec3.sub_def])
      (by norm_num [Vec3.dot, Vec3.sub_def]) (by norm_num)).2
    (by norm_num)).1 1 ?_ (by norm_num) ?_
  · rw [Real.sqrt_one]
    norm_num
  · exact_mod_cast WithTop.coe_le_coe.mpr (by norm_num)

theorem Vec3.dot_neg_left (a b : Vec3) : Vec3.dot (-a) b = -(Vec3.dot a b) := by
  simp only [show -a = Vec3.neg a from rfl, Vec3.neg, Vec3.dot]
  ring

theorem Vec3.dot_comm (a b : Vec3) : Vec3.dot a b = Vec3.dot b a := by
  simp only [Vec3.dot]
  ring

/-- Cauchy-Schwarz for the embedded dot product, by the Lagrange
identity. -/
theorem Vec3.dot_sq_le (a b : Vec3) :
    Vec3.dot a b * Vec3.dot a b ≤ Vec3.dot a a * Vec3.dot b b := by
  simp only [Vec3.dot]
  nlinarith [sq_nonneg (a.x * b.y - a.y * b.x), sq_nonneg (a.x * b.z - a.z * b.x),
    sq_nonneg (a.y * b.z - a.z * b.y)]

theorem Vec3.dot_self_pos (a : Vec3) (h : a ≠ ⟨0, 0, 0⟩) :
    0 < Vec3.dot a a := by
  rcases (Vec3.dot_self_nonneg a).lt_or_eq with hlt | heq
  · exact hlt
  · exfalso
    apply h
    obtain ⟨x, y, z⟩ := a
    simp only [Vec3.dot] at heq
    have hx : x = 0 := by nlinarith [mul_self_nonneg x, mul_self_nonneg y, mul_self_nonneg z]
    have hy : y = 0 := by nlinarith [mul_self_nonneg x, mul_self_nonneg y, mul_self_nonneg z]
    have hz : z = 0 := by nlinarith [mul_self_nonneg x, mul_self_nonneg y, mul_self_nonneg z]
    rw [hx, hy, hz]

/-- A nonzero vector normalizes to a unit vector. -/
theorem Vec3.dot_normalize_self (a : Vec3) (h : a ≠ ⟨0, 0, 0⟩) :
    Vec3.dot (Vec3.normalize a) (Vec3.normalize a) = 1 := by
  have hpos := Vec3.dot_self_pos a h
  have hs : Real.sqrt (Vec3.dot a a) * Real.sqrt (Vec3.dot a a) = Vec3.dot a a :=
    Real.mul_self_sqrt (Vec3.dot_self_nonneg a)
  have hsne : Real.sqrt (Vec3.dot a a) ≠ 0 := by
    intro h0
    rw [h0, mul_zero] at hs
    exact absurd hs.symm (ne_of_gt hpos)
  simp only [Vec3.normalize, Vec3.length, Vec3.divScalar, Vec3.dot] at hs hsne ⊢
  field_simp
  linarith [hs]

/-- C7 counterexample: with `refraction_index = 1` the Schlick reflectance
`(1 - cos_theta)^5` is still positive away from normal incidence, so a
small enough random draw (here 0) takes the reflect branch and the
scattered direction `(3/5, 4/5, 0)` is not colinear with the incoming
direction `(3, -4, 0)`. -/
theorem dielectric_unity_index_reflects :
    ¬ ∃ k : ℝ,
      (Dielectric.Scatter 1 0 ⟨⟨0, 0, 0⟩, ⟨3, -4, 0⟩⟩
          ⟨true, 1, ⟨0, 0, 0⟩, ⟨0, 1, 0⟩⟩).2.direction =
        Vec3.smul k ⟨3, -4, 0⟩ := by
  have hnorm : Vec3.normalize ⟨3, -4, 0⟩ = ⟨3/5, -4/5, 0⟩ := by
    simp only [Vec3.normalize, Vec3.length, Vec3.dot, Vec3.divScalar]
    rw [show (3 * 3 + (-4) * (-4) + 0 * 0 : ℝ) = 5 ^ 2 by norm_num,
      Real.sqrt_sq (by norm_num : (0:ℝ) ≤ 5)]
    norm_num
  have hdotneg : Vec3.dot (-(⟨3/5, -4/5, 0⟩ : Vec3)) ⟨0, 1, 0⟩ = 4/5 := by
    rw [Vec3.dot_neg_left]
    simp only [Vec3.dot]
    norm_num
  have hmin : min (4/5 : ℝ) 1 = 4/5 := by norm_num
  have hsin : Real.sqrt (1 - (4/5 : ℝ) * (4/5)) = 3/5 := by
    rw [show (1 - (4/5 : ℝ) * (4/5)) = (3/5) ^ 2 by norm_num,
      Real.sqrt_sq (by norm_num : (0:ℝ) ≤ 3/5)]
  have hcond : ((1:ℝ) * (3/5) > 1 ∨ Dielectric.Reflectance (4/5) 1 > 0) := by
    right
    simp only [Dielectric.Reflectance]
    norm_num
  have hrefl : Vec3.reflect ⟨3/5, -4/5, 0⟩ ⟨0, 1, 0⟩ = ⟨3/5, 4/5, 0⟩ := by
    simp only [Vec3.reflect, Vec3.dot, Vec3.smul, Vec3.sub_def]
    norm_num
  rintro ⟨k, hk⟩
  rw [show (Dielectric.Scatter 1 0 ⟨⟨0, 0, 0⟩, ⟨3, -4, 0⟩⟩
      ⟨true, 1, ⟨0, 0, 0⟩, ⟨0, 1, 0⟩⟩).2.direction =
      Vec3.reflect ⟨3/5, -4/5, 0⟩ ⟨0, 1, 0⟩ from by
    simp only [Dielectric.Scatter, hnorm, hdotneg, hmin, hsin, if_true,
      one_div_one]
    rw [if_pos hcond]] at hk
  rw [hrefl] at hk
  have h1 : (3/5 : ℝ) = k * 3 := congrArg Vec3.x hk
  have h2 : (4/5 : ℝ) = k * (-4) := congrArg Vec3.y hk
  nlinarith [h1, h2]

/-- C7 amended: with `refraction_index = 1`, a unit hit normal facing
against the incoming direction, and whenever the refraction branch is
taken (the Schlick reflectance draw does not select reflection — total
internal reflection being impossible at ratio 1), the scattered direction
is a positive multiple of the incoming direction.  The reflect branch,
reachable with probability `(1 - cos_theta)^5` per hit, bends the ray
(see the counterexample), so colinearity for every entry angle fails. -/
theorem dielectric_unity_refract_colinear (ray : Ray) (record : HitRecord)
    (rand : ℝ) (hn : Vec3.dot record.normal record.normal = 1)
    (hdir : ray.direction ≠ ⟨0, 0, 0⟩)
    (hside : Vec3.dot record.normal (Vec3.normalize ray.direction) ≤ 0)
    (hrand : Dielectric.Reflectance
      (min (Vec3.dot (-(Vec3.normalize ray.direction)) record.normal) 1) 1 ≤ rand) :
    ∃ k : ℝ, 0 < k ∧
      (Dielectric.Scatter 1 rand ray record).2.direction =
        Vec3.smul k ray.direction := by
  have hu : Vec3.dot (Vec3.normalize ray.direction) (Vec3.normalize ray.direction) = 1 :=
    Vec3.dot_normalize_self ray.direction hdir
  set u := Vec3.normalize ray.direction with hu_def
  set n := record.normal with hn_def
  have hratio : (if record.front_face then 1 / (1:ℝ) else 1) = 1 := by
    split <;> norm_num
  have hd0 : Vec3.dot (-u) n = -(Vec3.dot n u) := by
    rw [Vec3.dot_neg_left, Vec3.dot_comm]
  have hcs : Vec3.dot n u * Vec3.dot n u ≤ 1 := by
    have := Vec3.dot_sq_le n u
    rw [hn, hu, one_mul] at this
    exact this
  have hside' : Vec3.dot n u ≤ 0 := hside
  have hle1 : Vec3.dot (-u) n ≤ 1 := by
    rw [hd0]
    nlinarith [hcs]
  have hmin : min (Vec3.dot (-u) n) 1 = -(Vec3.dot n u) := by
    rw [min_eq_left hle1, hd0]
  have hsin_le : Real.sqrt (1 - -(Vec3.dot n u) * -(Vec3.dot n u)) ≤ 1 :=
    Real.sqrt_le_one.mpr (by nlinarith [mul_self_nonneg (Vec3.dot n u)])
  have hcond : ¬((1:ℝ) * Real.sqrt (1 - -(Vec3.dot n u) * -(Vec3.dot n u)) > 1 ∨
      Dielectric.Reflectance (-(Vec3.dot n u)) 1 > rand) := by
    push_neg
    constructor
    · rw [one_mul]
      exact hsin_le
    · rw [hmin] at hrand
      exact hrand
  have hkval : (1 : ℝ) - 1 * 1 * (1 - Vec3.dot n u * Vec3.dot n u) =
      Vec3.dot n u ^ 2 := by ring
  have hsqrtk : Real.sqrt ((1:ℝ) - 1 * 1 * (1 - Vec3.dot n u * Vec3.dot n u)) =
      -(Vec3.dot n u) := by
    rw [hkval, Real.sqrt_sq_eq_abs, abs_of_nonpos hside']
  have hrefr : Vec3.refract u n 1 = u := by
    simp only [Vec3.refract]
    rw [if_neg (by nlinarith [mul_self_nonneg (Vec3.dot n u)])]
    rw [hsqrtk]
    obtain ⟨ux, uy, uz⟩ := u
    obtain ⟨nx, ny, nz⟩ := n
    simp only [Vec3.smul, Vec3.sub_def]
    congr 1 <;> ring
  have hscatter : (Dielectric.Scatter 1 rand ray record).2.direction =
      Vec3.refract u n 1 := by
    simp only [Dielectric.Scatter, hratio, ← hu_def, ← hn_def, hmin]
    rw [if_neg hcond]
  refine ⟨1 / Real.sqrt (Vec3.dot ray.direction ray.direction), ?_, ?_⟩
  · exact one_div_pos.mpr (Real.sqrt_pos.mpr (Vec3.dot_self_pos _ hdir))
  · rw [hscatter, hrefr, hu_def]
    simp only [Vec3.normalize, Vec3.length, Vec3.divScalar, Vec3.smul]
    congr 1 <;> ring

/-- C7 amended witness: for the incoming direction `(3, -4, 0)`, the unit
normal `(0, 1, 0)` and the draw `rand = 1` (at least the reflectance
`1/3125`), the dielectric at index 1 refracts and the scattered direction
is `(1/5) * (3, -4, 0)`. -/
theorem dielectric_unity_refract_colinear_witness :
    ∃ k : ℝ, 0 < k ∧
      (Dielectric.Scatter 1 1 ⟨⟨0, 0, 0⟩, ⟨3, -4, 0⟩⟩
          ⟨true, 1, ⟨0, 0, 0⟩, ⟨0, 1, 0⟩⟩).2.direction =
        Vec3.smul k ⟨3, -4, 0⟩ := by
  have hnorm : Vec3.normalize ⟨3, -4, 0⟩ = ⟨3/5, -4/5, 0⟩ := by
    simp only [Vec3.normalize, Vec3.length, Vec3.dot, Vec3.divScalar]
    rw [show (3 * 3 + (-4) * (-4) + 0 * 0 : ℝ) = 5 ^ 2 by norm_num,
      Real.sqrt_sq (by norm_num : (0:ℝ) ≤ 5)]
    norm_num
  apply dielectric_unity_refract_colinear ⟨⟨0, 0, 0⟩, ⟨3, -4, 0⟩⟩
    ⟨true, 1, ⟨0, 0, 0⟩, ⟨0, 1, 0⟩⟩ 1
  · norm_num [Vec3.dot]
  · intro h
    have := congrArg Vec3.x h
    norm_num at this
  · rw [hnorm]
    norm_num [Vec3.dot]
  · rw [hnorm]
    have hdotneg : Vec3.dot (-(⟨3/5, -4/5, 0⟩ : Vec3)) ⟨0, 1, 0⟩ = 4/5 := by
      rw [Vec3.dot_neg_left]
      simp only [Vec3.dot]
      norm_num
    rw [hdotneg, min_eq_left (by norm_num)]
    simp only [Dielectric.Reflectance]
    norm_num

theorem stdClamp_unit_mem (v : ℝ) :
    0 ≤ stdClamp v 0 0.999 ∧ stdClamp v 0 0.999 ≤ 0.999 := by
  simp only [stdClamp]
  split_ifs with h1 h2 <;> constructor <;> linarith

/-- A gamma of at least one keeps every gamma-corrected channel within a
byte. -/
theorem getColorChannel_le_255 (scale channel gamma : ℝ) (hg : 1 ≤ gamma) :
    Utils.GetColorChannel scale channel gamma ≤ 255 := by
  have hmem := stdClamp_unit_mem (scale * channel)
  set b := stdClamp (scale * channel) 0 0.999 with hb
  have hb0 : (0:ℝ) ≤ b * 256 := by nlinarith [hmem.1]
  have hb1 : b * 256 ≤ 255.744 := by nlinarith [hmem.2]
  have he0 : (0:ℝ) ≤ 1 / gamma := by positivity
  have he1 : 1 / gamma ≤ 1 := by
    rw [div_le_one (by linarith)]
    exact hg
  have hpow : (b * 256) ^ (1 / gamma) ≤ 255.744 := by
    rcases le_or_lt (b * 256) 1 with hle | hgt
    · calc (b * 256) ^ (1 / gamma) ≤ 1 := Real.rpow_le_one hb0 hle he0
        _ ≤ 255.744 := by norm_num
    · calc (b * 256) ^ (1 / gamma) ≤ (b * 256) ^ (1:ℝ) :=
          Real.rpow_le_rpow_of_exponent_le (le_of_lt hgt) he1
        _ = b * 256 := Real.rpow_one _
        _ ≤ 255.744 := hb1
  simp only [Utils.GetColorChannel, ← hb]
  rw [Int.toNat_le]
  calc (⌊(b * 256) ^ (1 / gamma)⌋ : ℤ) ≤ ⌊(255.744 : ℝ)⌋ :=
        Int.floor_le_floor hpow
    _ = 255 := by rw [Int.floor_eq_iff] <;> norm_num

/-- Disjoint byte packing: a left-shifted word or-ed with shifted bytes is
their sum. -/
theorem pack_bytes (A B G R : ℕ) (hB : B ≤ 255) (hG : G ≤ 255)
    (hR : R ≤ 255) :
    (A <<< 24) ||| (B <<< 16) ||| (G <<< 8) ||| R =
      A * 2 ^ 24 + B * 2 ^ 16 + G * 2 ^ 8 + R := by
  have e1 : A <<< 24 = 2 ^ 24 * A := by rw [Nat.shiftLeft_eq, Nat.mul_comm]
  have e2 : B <<< 16 = B * 2 ^ 16 := Nat.shiftLeft_eq B 16
  have e3 : G <<< 8 = G * 2 ^ 8 := Nat.shiftLeft_eq G 8
  have hBlt : B * 2 ^ 16 < 2 ^ 24 := by
    calc B * 2 ^ 16 < 256 * 2 ^ 16 :=
          (Nat.mul_lt_mul_right (by positivity)).mpr (by omega)
      _ = 2 ^ 24 := by norm_num
  have hGlt : G * 2 ^ 8 < 2 ^ 16 := by
    calc G * 2 ^ 8 < 256 * 2 ^ 8 :=
          (Nat.mul_lt_mul_right (by positivity)).mpr (by omega)
      _ = 2 ^ 16 := by norm_num
  have hRlt : R < 2 ^ 8 := by omega
  rw [e1, e2, e3]
  rw [← Nat.mul_add_lt_is_or hBlt A]
  rw [show 2 ^ 24 * A + B * 2 ^ 16 = 2 ^ 16 * (2 ^ 8 * A + B) by ring]
  rw [← Nat.mul_add_lt_is_or hGlt (2 ^ 8 * A + B)]
  rw [show 2 ^ 16 * (2 ^ 8 * A + B) + G * 2 ^ 8 =
    2 ^ 8 * (2 ^ 16 * A + 2 ^ 8 * B + G) by ring]
  rw [← Nat.mul_add_lt_is_or hRlt (2 ^ 16 * A + 2 ^ 8 * B + G)]
  ring

/-- C5 counterexample: at `gamma = 1/2` the gamma-corrected red channel of
the colour `(1, 0, 0)` is `floor(255.744^2) = 65404`, far outside
`[0, 255]`, and its high bits bleed into the green byte of the packed
word: the claim forces the low sixteen bits (green byte zero, red at most
255) to be at most 255, but they hold 65404. -/
theorem get_color_channel_overflows :
    255 < Utils.GetColor ⟨1, 0, 0⟩ 1 (1/2) % 2 ^ 16 := by
  have hclamp1 : stdClamp ((1:ℝ) * 1) 0 0.999 = 0.999 := by
    simp only [stdClamp]
    rw [if_neg (by norm_num), if_pos (by norm_num)]
  have hclamp0 : stdClamp ((1:ℝ) * 0) 0 0.999 = 0 := by
    simp only [stdClamp]
    rw [if_neg (by norm_num), if_neg (by norm_num)]
    norm_num
  have hexp : (1 / (1/2 : ℝ)) = ((2:ℕ) : ℝ) := by norm_num
  have hch1 : Utils.GetColorChannel 1 1 (1/2) = 65404 := by
    simp only [Utils.GetColorChannel, hclamp1, hexp, Real.rpow_natCast]
    rw [show ((0.999 : ℝ) * 256) ^ (2:ℕ) = 65404.993536 by norm_num]
    rw [show (⌊(65404.993536 : ℝ)⌋ : ℤ) = 65404 by
      rw [Int.floor_eq_iff] <;> norm_num]
    rfl
  have hch0 : Utils.GetColorChannel 1 0 (1/2) = 0 := by
    simp only [Utils.GetColorChannel, hclamp0, hexp, Real.rpow_natCast]
    norm_num
  have hval : Utils.GetColor ⟨1, 0, 0⟩ 1 (1/2) =
      (255 <<< 24) ||| (0 <<< 16) ||| (0 <<< 8) ||| 65404 := by
    simp only [Utils.GetColor]
    rw [show (1 / ((1:ℤ) : ℝ)) = 1 by norm_num]
    rw [hch1, hch0]
  rw [hval]
  simp only [Nat.zero_shiftLeft, Nat.or_zero]
  rw [Nat.shiftLeft_eq, show (255 * 2 ^ 24 : ℕ) = 2 ^ 24 * 255 by ring,
    ← Nat.mul_add_lt_is_or (by norm_num : (65404:ℕ) < 2 ^ 24) 255]
  norm_num

/-- C5 amended: with `samples_per_pixel >= 1` and `gamma >= 1` every
gamma-corrected channel is an integer in `[0, 255]` and the packed word is
exactly `0xAABBGGRR`: alpha byte 255 in the three-channel variant, and in
the four-channel variant the alpha byte is the clamped alpha scaled by 256
and truncated — with no sample averaging and no gamma on alpha.  (For
`0 <= gamma < 1` the channel can exceed 255 and corrupt the neighbouring
byte, see the counterexample.) -/
theorem get_color_pack_spec (color : Vec3) (alpha : ℝ)
    (samples_per_pixel : ℤ) (gamma : ℝ) (hspp : 1 ≤ samples_per_pixel)
    (hgamma : 1 ≤ gamma) :
    (Utils.GetColorChannel (1 / (samples_per_pixel : ℝ)) color.x gamma ≤ 255 ∧
     Utils.GetColorChannel (1 / (samples_per_pixel : ℝ)) color.y gamma ≤ 255 ∧
     Utils.GetColorChannel (1 / (samples_per_pixel : ℝ)) color.z gamma ≤ 255) ∧
    Utils.GetColor color samples_per_pixel gamma =
      255 * 2 ^ 24 +
      Utils.GetColorChannel (1 / (samples_per_pixel : ℝ)) color.z gamma * 2 ^ 16 +
      Utils.GetColorChannel (1 / (samples_per_pixel : ℝ)) color.y gamma * 2 ^ 8 +
      Utils.GetColorChannel (1 / (samples_per_pixel : ℝ)) color.x gamma ∧
    (⌊stdClamp alpha 0 0.999 * 256⌋).toNat ≤ 255 ∧
    Utils.GetColor4 ⟨color.x, color.y, color.z, alpha⟩ samples_per_pixel gamma =
      (⌊stdClamp alpha 0 0.999 * 256⌋).toNat * 2 ^ 24 +
      Utils.GetColorChannel (1 / (samples_per_pixel : ℝ)) color.z gamma * 2 ^ 16 +
      Utils.GetColorChannel (1 / (samples_per_pixel : ℝ)) color.y gamma * 2 ^ 8 +
      Utils.GetColorChannel (1 / (samples_per_pixel : ℝ)) color.x gamma := by
  have hR := getColorChannel_le_255 (1 / (samples_per_pixel : ℝ)) color.x gamma hgamma
  have hG := getColorChannel_le_255 (1 / (samples_per_pixel : ℝ)) color.y gamma hgamma
  have hB := getColorChannel_le_255 (1 / (samples_per_pixel : ℝ)) color.z gamma hgamma
  have hA : (⌊stdClamp alpha 0 0.999 * 256⌋).toNat ≤ 255 := by
    have hmem := stdClamp_unit_mem alpha
    rw [Int.toNat_le]
    calc (⌊stdClamp alpha 0 0.999 * 256⌋ : ℤ) ≤ ⌊(255.744 : ℝ)⌋ :=
          Int.floor_le_floor (by nlinarith [hmem.2])
      _ = 255 := by rw [Int.floor_eq_iff] <;> norm_num
  refine ⟨⟨hR, hG, hB⟩, ?_, hA, ?_⟩
  · simp only [Utils.GetColor]
    exact pack_bytes 255 _ _ _ hB hG hR
  · simp only [Utils.GetColor4]
    exact pack_bytes _ _ _ _ hB hG hR

/-- C5 witness: one sample and unit gamma on the colour `(1, 0, 0)`
satisfies the amended hypotheses. -/
theorem get_color_pack_spec_witness :
    (1:ℤ) ≤ 1 ∧ (1:ℝ) ≤ 1 ∧
    Utils.GetColor ⟨1, 0, 0⟩ 1 1 =
      255 * 2 ^ 24 +
      Utils.GetColorChannel (1 / ((1:ℤ) : ℝ)) (Vec3.mk 1 0 0).z 1 * 2 ^ 16 +
      Utils.GetColorChannel (1 / ((1:ℤ) : ℝ)) (Vec3.mk 1 0 0).y 1 * 2 ^ 8 +
      Utils.GetColorChannel (1 / ((1:ℤ) : ℝ)) (Vec3.mk 1 0 0).x 1 :=
  ⟨le_refl 1, le_refl 1,
    (get_color_pack_spec ⟨1, 0, 0⟩ 0 1 1 (by norm_num) (by norm_num)).2.1⟩

/-- C6 counterexample: `samples_per_pixel = 0` is an invalid configuration
under the claim, yet `Scene::Render` does not fail with
`InvalidConfiguration` — it has no validation and no failure path at all
and renders a (degenerate) frame. -/
theorem render_no_validation :
    Scene.Render 2 2 ⟨0, 0, 0⟩ 90 0 0 5 1
      (fun _ _ => none) (fun _ _ => none) (fun _ _ => none) (fun _ _ => none)
      (fun _ => 0) (fun _ => ⟨0, 0, 0⟩) ≠
      Except.error RenderError.invalidConfiguration := by
  simp only [Scene.Render]
  exact fun h => Except.noConfusion h

/-- C6 amended: the render entry point performs no configuration
validation: for every configuration, invalid ones included, it returns a
pixel buffer and never the spec-modelled `InvalidConfiguration` failure;
the settings panel, not the renderer, clamps the samples-per-pixel to at
least 1, the bounce limit to at least 0 and the gamma to at least 0
before `Scene::Render` runs. -/
theorem render_never_fails_and_ui_clamps :
    (∀ (width height : ℕ) (origin : Vec3) (fov aperture : ℝ)
       (samples_per_pixel bounce_limit : ℤ) (gamma : ℝ)
       (mg mc ml mr : Material) (jitter : ℕ → ℝ) (disk : ℕ → Vec3),
       ∃ buffer, Scene.Render width height origin fov aperture
         samples_per_pixel bounce_limit gamma mg mc ml mr jitter disk =
           Except.ok buffer) ∧
    (∀ n : ℤ, 1 ≤ Scene.clampSamplesPerPixel n) ∧
    (∀ n : ℤ, 0 ≤ Scene.clampBounceLimit n) ∧
    (∀ g : ℝ, 0 ≤ Scene.clampGamma g) := by
  refine ⟨?_, ?_, ?_, ?_⟩
  · intro width height origin fov aperture samples_per_pixel bounce_limit
      gamma mg mc ml mr jitter disk
    exact ⟨_, rfl⟩
  · intro n
    simp only [Scene.clampSamplesPerPixel]
    split <;> omega
  · intro n
    simp only [Scene.clampBounceLimit]
    split <;> omega
  · intro g
    simp only [Scene.clampGamma]
    split
    · exact le_refl 0
    · linarith [not_lt.mp (by assumption : ¬ g < 0)]

theorem Sphere.acceptedRoot_eq (s : Sphere) (ray : Ray) (t_min : ℝ)
    (t_max : WithTop ℝ) :
    s.acceptedRoot ray t_min t_max =
      (if s.hitDiscriminant ray < 0 then none
       else if s.root1 ray < t_min ∨ t_max < (s.root1 ray : WithTop ℝ) then
         (if s.root2 ray < t_min ∨ t_max < (s.root2 ray : WithTop ℝ) then none
          else some (s.root2 ray))
       else some (s.root1 ray)) := rfl

theorem Sphere.root1_le_root2 (s : Sphere) (ray : Ray) :
    s.root1 ray ≤ s.root2 ray := by
  simp only [Sphere.root1, Sphere.root2]
  rcases (Vec3.dot_self_nonneg ray.direction).eq_or_lt with ha | ha
  · rw [← ha]
    simp
  · exact (div_le_div_right ha).mpr
      (by linarith [Real.sqrt_nonneg (s.hitDiscriminant ray)])

/-- The accepted-root decision accepts only roots inside the interval. -/
theorem acceptedRoot_ite_bounds (lo : ℝ) (hi : WithTop ℝ) (r1 r2 t : ℝ)
    (h : (if r1 < lo ∨ hi < (r1 : WithTop ℝ) then
            (if r2 < lo ∨ hi < (r2 : WithTop ℝ) then none else some r2)
          else some r1) = some t) :
    lo ≤ t ∧ (t : WithTop ℝ) ≤ hi := by
  split_ifs at h with h1 h2
  · have ht : r2 = t := by simpa using h
    subst ht
    push_neg at h2
    exact h2
  · have ht : r1 = t := by simpa using h
    subst ht
    push_neg at h1
    exact h1

/-- Shrinking the upper bound of the interval keeps exactly the accepted
roots that fit under the new bound (the two candidate roots are ordered). -/
theorem acceptedRoot_ite_shrink (lo : ℝ) (hi hi' : WithTop ℝ) (r1 r2 : ℝ)
    (h12 : r1 ≤ r2) (hh : hi' ≤ hi) (t : ℝ) :
    ((if r1 < lo ∨ hi' < (r1 : WithTop ℝ) then
        (if r2 < lo ∨ hi' < (r2 : WithTop ℝ) then none else some r2)
      else some r1) = some t) ↔
    ((if r1 < lo ∨ hi < (r1 : WithTop ℝ) then
        (if r2 < lo ∨ hi < (r2 : WithTop ℝ) then none else some r2)
      else some r1) = some t ∧ (t : WithTop ℝ) ≤ hi') := by
  constructor
  · intro h
    split_ifs at h with h1 h2
    · have ht : r2 = t := by simpa using h
      subst ht
      push_neg at h2
      have hr1lo : r1 < lo := by
        rcases h1 with h1 | h1
        · exact h1
        · exact absurd h1 (not_lt.mpr
            (le_trans (WithTop.coe_le_coe.mpr h12) h2.2))
      rw [if_pos (Or.inl hr1lo),
        if_neg (by push_neg; exact ⟨h2.1, le_trans h2.2 hh⟩)]
      exact ⟨rfl, h2.2⟩
    · have ht : r1 = t := by simpa using h
      subst ht
      push_neg at h1
      rw [if_neg (by push_neg; exact ⟨h1.1, le_trans h1.2 hh⟩)]
      exact ⟨rfl, h1.2⟩
  · rintro ⟨h, ht'⟩
    split_ifs at h with h1 h2
    · have ht : r2 = t := by simpa using h
      subst ht
      push_neg at h2
      have hrej1 : r1 < lo ∨ hi' < (r1 : WithTop ℝ) := by
        rcases h1 with h1 | h1
        · exact Or.inl h1
        · exact Or.inr (lt_of_le_of_lt hh h1)
      rw [if_pos hrej1, if_neg (by push_neg; exact ⟨h2.1, ht'⟩)]
    · have ht : r1 = t := by simpa using h
      subst ht
      push_neg at h1
      rw [if_neg (by push_neg; exact ⟨h1.1, ht'⟩)]

theorem Sphere.acceptedRoot_shrink (s : Sphere) (ray : Ray) (t_min : ℝ)
    (hi hi' : WithTop ℝ) (hh : hi' ≤ hi) (t : ℝ) :
    s.acceptedRoot ray t_min hi' = some t ↔
      (s.acceptedRoot ray t_min hi = some t ∧ (t : WithTop ℝ) ≤ hi') := by
  rw [Sphere.acceptedRoot_eq, Sphere.acceptedRoot_eq]
  by_cases hdisc : s.hitDiscriminant ray < 0
  · simp [hdisc]
  · rw [if_neg hdisc, if_neg hdisc]
    exact acceptedRoot_ite_shrink t_min hi hi' _ _ (s.root1_le_root2 ray) hh t

theorem Sphere.acceptedRoot_mem (s : Sphere) (ray : Ray) (t_min : ℝ)
    (t_max : WithTop ℝ) (t : ℝ) (h : s.acceptedRoot ray t_min t_max = some t) :
    t_min ≤ t ∧ (t : WithTop ℝ) ≤ t_max := by
  rw [Sphere.acceptedRoot_eq] at h
  by_cases hdisc : s.hitDiscriminant ray < 0
  · rw [if_pos hdisc] at h
    exact absurd h (by simp)
  · rw [if_neg hdisc] at h
    exact acceptedRoot_ite_bounds t_min t_max _ _ t h

theorem Sphere.saveHit_t (s : Sphere) (ray : Ray) (root : ℝ)
    (record : HitRecord) : (s.saveHit ray root record).t = root := rfl

theorem Sphere.hit_true_iff (s : Sphere) (ray : Ray) (t_min : ℝ)
    (t_max : WithTop ℝ) (record : HitRecord) :
    (s.Hit ray t_min t_max record).1 = true ↔
      ∃ t : ℝ, s.acceptedRoot ray t_min t_max = some t := by
  rw [Sphere.hit_eq_acceptedRoot]
  rcases hacc : s.acceptedRoot ray t_min t_max with _ | t
  · simp
  · simp

/-- The invariant of the `HittableList::Hit` scan: from any loop state
whose bound is at most `t_max`, if some remaining child accepts a root
within the current bound then the scan ends hit with the record of a
remaining child whose accepted root is least among those within the
bound; if no remaining child does, the scan leaves the state alone. -/
theorem HittableList.foldl_scan (ray : Ray) (t_min : ℝ) (t_max : WithTop ℝ)
    (record0 : HitRecord) :
    ∀ (objects : List Sphere) (b : Bool) (cl : WithTop ℝ) (tmp rec : HitRecord),
      cl ≤ t_max →
      ((∃ s ∈ objects, ∃ t : ℝ,
          s.acceptedRoot ray t_min t_max = some t ∧ (t : WithTop ℝ) ≤ cl) →
        (objects.foldl (HittableList.HitStep ray t_min) (b, cl, tmp, rec)).1 = true ∧
        ∃ s ∈ objects, ∃ t : ℝ,
          s.acceptedRoot ray t_min t_max = some t ∧ (t : WithTop ℝ) ≤ cl ∧
          (objects.foldl (HittableList.HitStep ray t_min) (b, cl, tmp, rec)).2.2.2 =
            s.saveHit ray t record0 ∧
          ∀ s' ∈ objects, ∀ t' : ℝ,
            s'.acceptedRoot ray t_min t_max = some t' →
            (t' : WithTop ℝ) ≤ cl → t ≤ t') ∧
      ((¬ ∃ s ∈ objects, ∃ t : ℝ,
          s.acceptedRoot ray t_min t_max = some t ∧ (t : WithTop ℝ) ≤ cl) →
        objects.foldl (HittableList.HitStep ray t_min) (b, cl, tmp, rec) =
          (b, cl, tmp, rec)) := by
  intro objects
  induction objects with
  | nil =>
    intro b cl tmp rec hcl
    constructor
    · rintro ⟨s, hs, _⟩
      exact absurd hs (List.not_mem_nil s)
    · intro _
      rfl
  | cons o os ih =>
    intro b cl tmp rec hcl
    simp only [List.foldl_cons]
    rcases hacc : o.acceptedRoot ray t_min cl with _ | t1
    · -- the head child misses the current window: the state is untouched
      have hohit : o.Hit ray t_min cl tmp = (false, tmp) := by
        rw [Sphere.hit_eq_acceptedRoot, hacc]
      have hstep : HittableList.HitStep ray t_min (b, cl, tmp, rec) o =
          (b, cl, tmp, rec) := by
        simp [HittableList.HitStep, hohit]
      rw [hstep]
      have hnone : ∀ t : ℝ, o.acceptedRoot ray t_min t_max = some t →
          ¬((t : WithTop ℝ) ≤ cl) := by
        intro t ht hle
        have hsome := (o.acceptedRoot_shrink ray t_min t_max cl hcl t).mpr ⟨ht, hle⟩
        rw [hacc] at hsome
        exact Option.noConfusion hsome
      obtain ⟨ih1, ih2⟩ := ih b cl tmp rec hcl
      constructor
      · rintro ⟨s, hs, t, ht, hle⟩
        rcases List.mem_cons.mp hs with rfl | hs'
        · exact absurd hle (hnone t ht)
        · obtain ⟨hflag, s2, hs2, t2, ht2, hle2, hrec2, hmin2⟩ :=
            ih1 ⟨s, hs', t, ht, hle⟩
          refine ⟨hflag, s2, List.mem_cons_of_mem _ hs2, t2, ht2, hle2, hrec2, ?_⟩
          intro s' hs'' t' ht' hle'
          rcases List.mem_cons.mp hs'' with rfl | hs'''
          · exact absurd hle' (hnone t' ht')
          · exact hmin2 s' hs''' t' ht' hle'
      · intro hno
        apply ih2
        rintro ⟨s, hs, t, ht, hle⟩
        exact hno ⟨s, List.mem_cons_of_mem _ hs, t, ht, hle⟩
    · -- the head child hits the current window at t1
      have hohit : o.Hit ray t_min cl tmp = (true, o.saveHit ray t1 tmp) := by
        rw [Sphere.hit_eq_acceptedRoot, hacc]
      have hstep : HittableList.HitStep ray t_min (b, cl, tmp, rec) o =
          (true, (t1 : WithTop ℝ), o.saveHit ray t1 tmp, o.saveHit ray t1 tmp) := by
        simp [HittableList.HitStep, hohit, Sphere.saveHit_t]
      rw [hstep]
      obtain ⟨ht1_full, ht1_le⟩ :=
        (o.acceptedRoot_shrink ray t_min t_max cl hcl t1).mp hacc
      obtain ⟨ih1, ih2⟩ := ih true (t1 : WithTop ℝ) (o.saveHit ray t1 tmp)
        (o.saveHit ray t1 tmp) (le_trans ht1_le hcl)
      by_cases hos : ∃ s ∈ os, ∃ t : ℝ,
          s.acceptedRoot ray t_min t_max = some t ∧
            (t : WithTop ℝ) ≤ (t1 : WithTop ℝ)
      · obtain ⟨hflag, s2, hs2, t2, ht2, hle2, hrec2, hmin2⟩ := ih1 hos
        constructor
        · intro _
          refine ⟨hflag, s2, List.mem_cons_of_mem _ hs2, t2, ht2,
            le_trans hle2 ht1_le, hrec2, ?_⟩
          intro s' hs' t' ht' hle'
          rcases List.mem_cons.mp hs' with rfl | hs''
          · have ht1t' : t' = t1 := by
              rw [ht1_full] at ht'
              exact (Option.some.inj ht').symm
            subst ht1t'
            exact WithTop.coe_le_coe.mp hle2
          · by_cases hle'' : (t' : WithTop ℝ) ≤ (t1 : WithTop ℝ)
            · exact hmin2 s' hs'' t' ht' hle''
            · have h1 : t2 ≤ t1 := WithTop.coe_le_coe.mp hle2
              have h2 : t1 < t' := WithTop.coe_lt_coe.mp (not_le.mp hle'')
              linarith
        · intro hno
          exact absurd ⟨o, List.mem_cons_self o os, t1, ht1_full, ht1_le⟩ hno
      · have hfold := ih2 hos
        constructor
        · intro _
          rw [hfold]
          refine ⟨rfl, o, List.mem_cons_self o os, t1, ht1_full, ht1_le,
            Sphere.saveHit_const o ray t1 tmp record0, ?_⟩
          intro s' hs' t' ht' hle'
          rcases List.mem_cons.mp hs' with rfl | hs''
          · rw [ht1_full] at ht'
            exact le_of_eq (Option.some.inj ht')
          · have hnot : ¬((t' : WithTop ℝ) ≤ (t1 : WithTop ℝ)) :=
              fun hc => hos ⟨s', hs'', t', ht', hc⟩
            exact le_of_lt (WithTop.coe_lt_coe.mp (not_le.mp hnot))
        · intro hno
          exact absurd ⟨o, List.mem_cons_self o os, t1, ht1_full, ht1_le⟩ hno

/-- C3: `HittableList::Hit` returns true exactly when some child hits
within `[t_min, t_max]`, and on success the caller record is the record of
a hitting child whose parameter `t` is least among the hits of all
children queried on the full interval — the shrinking-bound scan
implements the brute-force nearest hit. -/
theorem hittable_list_nearest (objects : List Sphere) (ray : Ray)
    (t_min : ℝ) (t_max : WithTop ℝ) (record : HitRecord) :
    ((HittableList.Hit objects ray t_min t_max record).1 = true ↔
      ∃ s ∈ objects, (s.Hit ray t_min t_max record).1 = true) ∧
    ((HittableList.Hit objects ray t_min t_max record).1 = true →
      ∃ s ∈ objects,
        s.Hit ray t_min t_max record =
          (true, (HittableList.Hit objects ray t_min t_max record).2) ∧
        ∀ s' ∈ objects, ∀ rec' : HitRecord,
          s'.Hit ray t_min t_max record = (true, rec') →
          (HittableList.Hit objects ray t_min t_max record).2.t ≤ rec'.t) := by
  have hscan := HittableList.foldl_scan ray t_min t_max HitRecord.default
    objects false t_max HitRecord.default record (le_refl t_max)
  have hP : (∃ s ∈ objects, ∃ t : ℝ,
      s.acceptedRoot ray t_min t_max = some t ∧ (t : WithTop ℝ) ≤ t_max) ↔
      ∃ s ∈ objects, (s.Hit ray t_min t_max record).1 = true := by
    constructor
    · rintro ⟨s, hs, t, ht, _⟩
      exact ⟨s, hs, (s.hit_true_iff ray t_min t_max record).mpr ⟨t, ht⟩⟩
    · rintro ⟨s, hs, htrue⟩
      obtain ⟨t, ht⟩ := (s.hit_true_iff ray t_min t_max record).mp htrue
      exact ⟨s, hs, t, ht, (s.acceptedRoot_mem ray t_min t_max t ht).2⟩
  have hfst : (HittableList.Hit objects ray t_min t_max record).1 =
      (objects.foldl (HittableList.HitStep ray t_min)
        (false, t_max, HitRecord.default, record)).1 := rfl
  have hsnd : (HittableList.Hit objects ray t_min t_max record).2 =
      (objects.foldl (HittableList.HitStep ray t_min)
        (false, t_max, HitRecord.default, record)).2.2.2 := rfl
  have hprem_of_true :
      (HittableList.Hit objects ray t_min t_max record).1 = true →
      (∃ s ∈ objects, ∃ t : ℝ,
        s.acceptedRoot ray t_min t_max = some t ∧ (t : WithTop ℝ) ≤ t_max) := by
    intro htrue
    by_contra hno
    rw [hfst, hscan.2 hno] at htrue
    exact Bool.false_ne_true htrue
  constructor
  · constructor
    · intro htrue
      exact hP.mp (hprem_of_true htrue)
    · intro hex
      rw [hfst]
      exact (hscan.1 (hP.mpr hex)).1
  · intro htrue
    obtain ⟨_, s, hs, t, ht, hle, hrec, hmin⟩ := hscan.1 (hprem_of_true htrue)
    have hHit2 : (HittableList.Hit objects ray t_min t_max record).2 =
        s.saveHit ray t HitRecord.default := by
      rw [hsnd]
      exact hrec
    refine ⟨s, hs, ?_, ?_⟩
    · rw [Sphere.hit_eq_acceptedRoot, ht, hHit2]
      rfl
    · intro s' hs' rec' hhit'
      rw [Sphere.hit_eq_acceptedRoot] at hhit'
      rcases hacc' : s'.acceptedRoot ray t_min t_max with _ | t'
      · rw [hacc'] at hhit'
        exact absurd hhit' (by simp)
      · rw [hacc'] at hhit'
        have h2 : s'.saveHit ray t' record = rec' := congrArg Prod.snd hhit'
        have hFt : (HittableList.Hit objects ray t_min t_max record).2.t = t := by
          rw [hHit2, Sphere.saveHit_t]
        have hrt : rec'.t = t' := by
          rw [← h2, Sphere.saveHit_t]
        rw [hFt, hrt]
        exact hmin s' hs' t' hacc'
          (s'.acceptedRoot_mem ray t_min t_max t' hacc').2

/-- C3 witness: the two-sphere scene with spheres at depth 3 and depth 1
along the ray has a hitting member, so the list scan reports a hit. -/
theorem hittable_list_nearest_witness :
    (HittableList.Hit [⟨1, ⟨0, 0, -4⟩⟩, ⟨1, ⟨0, 0, -2⟩⟩]
      ⟨⟨0, 0, 0⟩, ⟨0, 0, -1⟩⟩ 0 ((100 : ℝ) : WithTop ℝ)
      HitRecord.default).1 = true := by
  have hd : Sphere.hitDiscriminant ⟨1, ⟨0, 0, -2⟩⟩ ⟨⟨0, 0, 0⟩, ⟨0, 0, -1⟩⟩ = 1 := by
    simp only [Sphere.hitDiscriminant, Vec3.dot, Vec3.sub_def]
    norm_num
  have hr1 : Sphere.root1 ⟨1, ⟨0, 0, -2⟩⟩ ⟨⟨0, 0, 0⟩, ⟨0, 0, -1⟩⟩ = 1 := by
    simp only [Sphere.root1, hd, Real.sqrt_one, Vec3.dot, Vec3.sub_def]
    norm_num
  have hacc : Sphere.acceptedRoot ⟨1, ⟨0, 0, -2⟩⟩ ⟨⟨0, 0, 0⟩, ⟨0, 0, -1⟩⟩ 0
      ((100 : ℝ) : WithTop ℝ) = some 1 := by
    rw [Sphere.acceptedRoot_eq, hd, hr1]
    rw [if_neg (by norm_num), if_neg (by
      push_neg
      exact ⟨by norm_num, WithTop.coe_le_coe.mpr (by norm_num)⟩)]
  exact (hittable_list_nearest [⟨1, ⟨0, 0, -4⟩⟩, ⟨1, ⟨0, 0, -2⟩⟩]
    ⟨⟨0, 0, 0⟩, ⟨0, 0, -1⟩⟩ 0 ((100 : ℝ) : WithTop ℝ)
    HitRecord.default).1.mpr
    ⟨⟨1, ⟨0, 0, -2⟩⟩, by simp,
      (Sphere.hit_true_iff _ _ _ _ _).mpr ⟨1, hacc⟩⟩

end RT
